import Mathlib

set_option maxRecDepth 100000

/-!
Verification of the machine execution core of amitools
(`amitools/vamos/machine/machine.py`) against its specification.

The Python code is shallowly embedded: the `Machine` object becomes a
structure with explicit state passing, byte memory is a function
`Nat → Nat`, and the external musashi CPU emulator (`cpu.execute`) is
modelled as an oracle: a list of `Slice` values describing what each
call to `cpu.execute` did (cycles used, guest state changes, and which
host handler — all of which live in `machine.py` — was invoked).
-/

namespace AmiMachine

/-! Section: Constants from `Machine` (machine.py lines 57-65) -/

def run_reset_addr : Nat := 0x400
def run_max_nesting : Nat := 16
def reset_exvec_addr : Nat := 0x420
def shutdown_trap_addr : Nat := 0x422
def ram_begin : Nat := 0x800

/-- register index of A7 (from the `regs` module; the concrete value is
    an opaque key, only its identity matters). -/
def REG_A7 : Nat := 15

/-- m68k RESET opcode (from the `opcodes` module). -/
def op_reset : Nat := 0x4E70

/-- m68k TRAP opcode base (from the `opcodes` module); the trap id is
    or-ed into the low bits. -/
def op_trap : Nat := 0x4E40

/-! Section: Byte memory with big-endian 16/32-bit accessors
(the musashi `emu.Memory` facade: `w16`, `w32`, `r32`) -/

/-- byte memory: address to byte value -/
def Mem := Nat → Nat

def w8 (m : Mem) (a v : Nat) : Mem :=
  fun x => if x = a then v % 256 else m x

def w16 (m : Mem) (a v : Nat) : Mem :=
  w8 (w8 m a (v / 256)) (a + 1) v

def w32 (m : Mem) (a v : Nat) : Mem :=
  w16 (w16 m a (v / 65536)) (a + 2) v

def r16 (m : Mem) (a : Nat) : Nat :=
  m a * 256 + m (a + 1)

def r32 (m : Mem) (a : Nat) : Nat :=
  r16 m a * 65536 + r16 m (a + 2)

/-- all-zero memory, the initial RAM image -/
def zeroMem : Mem := fun _ => 0

/-! Section: Errors and run state -/

/-- the machine errors raised by machine.py; `.host` stands for an
    arbitrary exception raised by host code inside a trap handler -/
inductive MachError where
  | invalidMemoryAccess (mode width addr : Nat)
  | invalidCPUState (pc : Nat) (txt : String)
  | host (e : Nat)
  deriving Repr, DecidableEq

/-- `RunState` (machine.py lines 14-24); `time_delta` is wall-clock time
    and is not modelled. -/
structure RunState where
  name : String
  pc : Nat
  sp : Nat
  ret_addr : Nat
  error : Option MachError := none
  done : Bool := false
  cycles : Nat := 0
  regs : Option (List (Nat × Nat)) := none
  deriving Repr, DecidableEq

/-- the `Machine` state: memory, CPU registers/PC, the run-state stack
    (most recent run at the head) and configuration -/
structure Machine where
  mem : Mem
  regsCpu : Nat → Nat
  pcCpu : Nat
  run_states : List RunState
  mem0 : Nat := 0
  mem4 : Nat := 0
  raise_on_main_run : Bool := true
  shutdown_func : Bool := false
  cycles_per_run : Nat := 1000

def wreg (r : Nat → Nat) (i v : Nat) : Nat → Nat :=
  fun x => if x = i then v else r x

/-- `get_cur_run_state` (machine.py lines 208-210): the most recent run
    state (the Python list's last element is our head) -/
def get_cur_run_state (mach : Machine) : Option RunState :=
  mach.run_states.head?

/-- apply `f` to the current run state (Python mutates the shared
    `run_state` object that sits on top of `run_states`) -/
def updCur (mach : Machine) (f : RunState → RunState) : Machine :=
  { mach with run_states :=
      match mach.run_states with
      | [] => []
      | r :: rest => f r :: rest }

/-! Section: `_init_base_mem` (machine.py lines 111-127) -/

/-- `_init_base_mem`: faithful to the source, including the fact that
    the exception-vector loop body never increments `addr`, so all 254
    iterations write the 32-bit word at address 8. -/
def init_base_mem (shutdown_tid : Nat) (m : Mem) : Mem :=
  -- m68k exception vector table: addr = 8; loop body writes w32(addr, ...)
  -- and leaves addr unchanged
  let m := (List.range 254).foldl (fun mm _ => w32 mm 8 reset_exvec_addr) m
  -- run reset table: addr starts at run_reset_addr and advances by 2
  let m := (List.range run_max_nesting).foldl
      (fun mm i => w16 mm (run_reset_addr + 2 * i) op_reset) m
  -- reset exc vector
  let m := w16 m reset_exvec_addr op_reset
  -- trap for shutdown
  w16 m shutdown_trap_addr (op_trap ||| shutdown_tid)

/-! Section: Host handlers installed on the emulator (machine.py lines 216-269).
Each returns the updated machine together with a flag recording whether
`cpu.end()` was called. -/

/-- `_invalid_mem_access` (machine.py lines 216-228): record an
    `InvalidMemoryAccessError` unless an error is already pending. -/
def invalid_mem_access (mach : Machine) (mode width addr : Nat) :
    Machine × Bool :=
  match get_cur_run_state mach with
  | none => (mach, false)   -- assert in get_cur_run_state fails
  | some run_state =>
    -- already a pending error?
    if run_state.error.isSome then
      (mach, false)
    else
      let rs := { run_state with
        error := some (.invalidMemoryAccess mode width addr),
        done := true }
      -- end time slice of cpu; error is reported (logging only)
      (updCur mach (fun _ => rs), true)

/-- `_trap_exc_handler` (machine.py lines 230-241): store the pending
    host exception (`sys.exc_info()[1]`, which may be `None`) into the
    current run state, mark it done and end the cpu time slice. -/
def trap_exc_handler (mach : Machine) (exc : Option MachError) :
    Machine × Bool :=
  match get_cur_run_state mach with
  | none => (mach, false)
  | some run_state =>
    let rs := { run_state with error := exc, done := true }
    (updCur mach (fun _ => rs), true)

/-- `_reset_opcode_handler` (machine.py lines 243-269): classify the
    RESET opcode the cpu just executed. Reads `pc = cpu.r_pc() - 2`,
    `sp = cpu.r_reg(A7)` and `callee_pc = mem.r32(sp)` from the machine. -/
def reset_opcode_handler (mach : Machine) : Machine × Bool :=
  match get_cur_run_state mach with
  | none => (mach, false)
  | some run_state =>
    -- get current pc
    let pc := mach.pcCpu - 2
    let sp := mach.regsCpu REG_A7
    let callee_pc := r32 mach.mem sp
    let ret_addr := run_state.ret_addr
    if pc = ret_addr then
      (updCur mach (fun _ => { run_state with done := true }), true)
    else
      -- m68k Exception Triggered / some other unexpected RESET opcode
      let txt :=
        if pc = reset_exvec_addr then
          "m68k Exception #" ++ toString (callee_pc >>> 2)
        else
          "Unexpected RESET opcode"
      let rs := { run_state with
        error := some (.invalidCPUState pc txt), done := true }
      (updCur mach (fun _ => rs), true)

/-! Section: The execution loop of `run` (machine.py lines 330-345).

`cpu.execute(cycles_per_run)` is external (musashi); one call is
modelled by a `Slice`: the cycles it used, the guest's effect on memory
and on the cpu's PC / A7, and which host handler the emulator invoked
during the slice (ending it). -/

/-- what happened during one `cpu.execute` slice -/
inductive SliceEvent where
  /-- the slice ran through its cycle budget without host intervention -/
  | pass
  /-- the cpu executed a RESET opcode: `_reset_opcode_handler` runs -/
  | resetOp
  /-- an invalid memory access: `_invalid_mem_access mode width addr` runs -/
  | invalidMem (mode width addr : Nat)
  /-- a host trap handler raised `e`: the traps glue invokes
      `_trap_exc_handler` and the exception then propagates out of
      `cpu.execute` into `run`'s `except` clause -/
  | trapExc (e : Option MachError)
  /-- an exception propagated out of `cpu.execute` without any handler
      running (e.g. raised by an instruction hook) -/
  | raiseOut (e : MachError)

/-- one call to `cpu.execute`: guest effects and the ending event -/
structure Slice where
  cycles : Nat
  memUpd : Mem → Mem
  pcAfter : Nat
  a7After : Nat
  event : SliceEvent

/-- the guest-visible effect of a slice on the machine state (memory
    writes and the cpu's PC / A7 at the moment the slice ends) -/
def guestStep (mach : Machine) (s : Slice) : Machine :=
  { mach with
    mem := s.memUpd mach.mem,
    pcCpu := s.pcAfter,
    regsCpu := wreg mach.regsCpu REG_A7 s.a7After }

/-- the `while not run_state.done` loop of `run` (machine.py lines
    335-344), driven by the slice oracle. Returns the machine, the
    accumulated `total_cycles`, and the exception (if any) that escaped
    `cpu.execute` and was caught by `run`'s `except` clause.
    An exhausted oracle simply ends the loop (the real loop would call
    `cpu.execute` again). -/
def runLoop (max_cycles : Nat) (mach : Machine) (total : Nat) :
    List Slice → Machine × Nat × Option MachError
  | [] => (mach, total, none)
  | s :: rest =>
    match get_cur_run_state mach with
    | none => (mach, total, none)
    | some run_state =>
      if run_state.done then
        (mach, total, none)
      else
        let mach1 := guestStep mach s
        match s.event with
        | .raiseOut e =>
          -- `total_cycles += cpu.execute(...)` aborts: cycles not added
          (mach1, total, some e)
        | .trapExc e =>
          -- the traps glue runs `_trap_exc_handler`, then the host
          -- exception unwinds out of `cpu.execute`
          ((trap_exc_handler mach1 e).1, total, e)
        | .pass =>
          let total := total + s.cycles
          -- end after enough cycles
          if max_cycles > 0 ∧ total ≥ max_cycles then
            (mach1, total, none)
          else
            runLoop max_cycles mach1 total rest
        | .resetOp =>
          let mach2 := (reset_opcode_handler mach1).1
          let total := total + s.cycles
          if max_cycles > 0 ∧ total ≥ max_cycles then
            (mach2, total, none)
          else
            runLoop max_cycles mach2 total rest
        | .invalidMem mode width addr =>
          let mach2 := (invalid_mem_access mach1 mode width addr).1
          let total := total + s.cycles
          if max_cycles > 0 ∧ total ≥ max_cycles then
            (mach2, total, none)
          else
            runLoop max_cycles mach2 total rest

/-! Section: `run` (machine.py lines 274-375) -/

/-- the return trampoline address computed by `run`
    (machine.py line 286: `ret_addr = self.run_reset_addr + nesting * 4`) -/
def run_ret_addr (nesting : Nat) : Nat :=
  run_reset_addr + nesting * 4

/-- the reset pulse of `run` (machine.py lines 312-317): write `sp` and
    `pc` to the zero page, pulse the cpu reset, restore `mem0`/`mem4`.
    Modelled from the spec: musashi's `pulse_reset()` "loads SP/PC from
    zero-page", i.e. A7 := r32 mem 0 and PC := r32 mem 4. -/
def pulse_reset_seq (mach : Machine) (sp pc : Nat) : Machine :=
  let mem := w32 mach.mem 0 sp
  let mem := w32 mem 4 pc
  let a7 := r32 mem 0
  let pcCpu := r32 mem 4
  let mem := w32 mem 0 mach.mem0
  let mem := w32 mem 4 mach.mem4
  { mach with
    mem := mem,
    pcCpu := pcCpu,
    regsCpu := wreg mach.regsCpu REG_A7 a7 }

/-- how a call to `run` ends -/
inductive RunOutcome where
  /-- `run` returned `run_state` -/
  | ok (rs : RunState)
  /-- `run` raised `NestedCPURunError(pc, error)` -/
  | nestedError (pc : Nat) (e : MachError)
  /-- `run` raised `ValueError("stack must be specified!")` -/
  | valueError (msg : String)
  deriving Repr, DecidableEq

/-- the tail of `run` (machine.py lines 368-375): rethrow the captured
    error as `NestedCPURunError` for nested runs (or when
    `raise_on_main_run` is set), else return the run state. -/
def run_epilogue (raise_on_main_run : Bool) (nesting : Nat)
    (mach : Machine) (run_state : RunState) : RunOutcome × Machine :=
  match run_state.error with
  | some e =>
    if nesting > 0 || raise_on_main_run then
      (.nestedError mach.pcCpu e, mach)
    else
      (.ok run_state, mach)
  | none => (.ok run_state, mach)

/-- the part of `run` before the execution loop (machine.py lines
    276-328): resolve the stack pointer, write the trampoline return
    address (and optionally the shutdown trap address) to the stack,
    pulse the reset, push the new `RunState` and preset registers.
    `none` models the `ValueError("stack must be specified!")`. -/
def run_pre (mach : Machine) (pc : Nat) (sp? : Option Nat)
    (set_regs : List (Nat × Nat)) (name? : Option String) :
    Option Machine :=
  let name :=
    match name? with
    | some n => n
    | none => "default"
  -- current run nesting level
  let nesting := mach.run_states.length
  -- return reset opcode for this run
  let ret_addr := run_ret_addr nesting
  -- share stack with last run if not specified
  let sp?' : Option Nat :=
    match sp? with
    | some sp => some sp
    | none => if nesting = 0 then none else some (mach.regsCpu REG_A7 - 4)
  match sp?' with
  | none => none
  | some sp =>
    -- store return address on stack
    let mem := w32 mach.mem sp ret_addr
    -- if a shutdown func is set then push its trap addr to stack, too
    let (mem, sp) :=
      if mach.shutdown_func && nesting = 0 then
        (w32 mem (sp - 4) shutdown_trap_addr, sp - 4)
      else
        (mem, sp)
    -- pulse reset to setup PC, SP and restore mem0,4
    let mach := pulse_reset_seq { mach with mem := mem } sp pc
    -- create run state for this run and push it
    let run_state : RunState := { name := name, pc := pc, sp := sp,
                                  ret_addr := ret_addr }
    let mach := { mach with run_states := run_state :: mach.run_states }
    -- setup regs
    let presetRegs := set_regs.foldl (fun r p => wreg r p.1 p.2) mach.regsCpu
    some { mach with regsCpu := presetRegs }

/-- the part of `run` after the execution loop (machine.py lines
    347-375): retrieve registers, restore the cpu context of the outer
    run, store the cycle count, pop the `RunState` and return it or
    rethrow its error. -/
def run_post (raise_on_main_run : Bool) (nesting : Nat)
    (cpu_ctx : Option ((Nat → Nat) × Nat)) (get_regs : List Nat)
    (mach : Machine) (total_cycles : Nat) : RunOutcome × Machine :=
  -- retrieve regs
  let mach :=
    if get_regs.isEmpty then mach
    else updCur mach (fun rs =>
      { rs with regs := some (get_regs.map (fun r => (r, mach.regsCpu r))) })
  -- restore cpu context
  let mach :=
    match cpu_ctx with
    | some (r, p) => { mach with regsCpu := r, pcCpu := p }
    | none => mach
  -- update run state (time_delta is not modelled) and pop
  let mach := updCur mach (fun rs => { rs with cycles := total_cycles })
  match mach.run_states with
  | [] =>
    (.valueError
      "pop from empty list", mach)
  | rsFinal :: rest =>
    let mach := { mach with run_states := rest }
    -- if run_state has error and we are not a top-level raise an error
    run_epilogue raise_on_main_run nesting mach rsFinal

/-- `Machine.run` (machine.py lines 274-375), with `sched` the oracle
    for the external `cpu.execute` calls. Returns the outcome and the
    machine state after the call. `cycles_per_run` only scales the
    slices of the oracle and has no further effect in the model. -/
def run (mach : Machine) (sched : List Slice) (pc : Nat)
    (sp? : Option Nat := none)
    (set_regs : List (Nat × Nat) := [])
    (get_regs : List Nat := [])
    (max_cycles : Nat := 0) (_cycles_per_run : Nat := 0)
    (name? : Option String := none) : RunOutcome × Machine :=
  -- current run nesting level
  let nesting := mach.run_states.length
  -- get cpu context
  let cpu_ctx : Option ((Nat → Nat) × Nat) :=
    if nesting > 0 then some (mach.regsCpu, mach.pcCpu) else none
  match run_pre mach pc sp? set_regs name? with
  | none =>
    (.valueError
      "stack must be specified!", mach)
  | some machP =>
    -- main execution loop of run (an exception escaping cpu.execute is
    -- caught by the except clause and only reported)
    let (machL, total_cycles, _escaped) := runLoop max_cycles machP 0 sched
    run_post mach.raise_on_main_run nesting cpu_ctx get_regs machL
      total_cycles

/-- the error a `run` outcome carries: the `error` field of a returned
    run state, or the wrapped error of a raised `NestedCPURunError` -/
def outcome_error : RunOutcome → Option MachError
  | .ok rs => rs.error
  | .nestedError _ e => some e
  | .valueError _ => none

/-- total cycles of a list of slices -/
def sumCycles (l : List Slice) : Nat := (l.map Slice.cycles).sum

/-- the cycle count accumulated by the execution loop over slices that
    need no host intervention, with cap `k`: the running total after the
    first slice that makes it reach `k` (all slices if none does) -/
def sliceTotal (k : Nat) (total : Nat) : List Slice → Nat
  | [] => total
  | s :: rest =>
    let t := total + s.cycles
    if k > 0 ∧ t ≥ k then t else sliceTotal k t rest

/-! Section: Concrete machines and schedules used to evaluate the code -/

def zeroRegs : Nat → Nat := fun _ => 0

/-- run state of an enclosing depth-0 run, used to set up nested calls -/
def outerRS : RunState :=
  { name := "outer", pc := ram_begin, sp := 0x1000,
    ret_addr := run_ret_addr 0 }

/-- machine with one active run (nesting depth 1 for the next `run`) -/
def mach1 : Machine :=
  { mem := zeroMem, regsCpu := zeroRegs, pcCpu := 0,
    run_states := [outerRS] }

/-- machine with `run_max_nesting` active runs -/
def mach16 : Machine :=
  { mem := zeroMem, regsCpu := zeroRegs, pcCpu := 0,
    run_states := List.replicate 16 outerRS }

/-- a slice in which the guest immediately executes the RESET opcode at
    `ra` (so the cpu's PC is `ra + 2` when the handler runs) -/
def resetSlice (ra : Nat) : Slice :=
  { cycles := 20, memUpd := id, pcAfter := ra + 2, a7After := 0x7F0,
    event := .resetOp }

/-- a slice that runs `c` cycles of plain guest code -/
def passSlice (c : Nat) : Slice :=
  { cycles := c, memUpd := id, pcAfter := 0x802, a7After := 0xFFC,
    event := .pass }

/-- a slice during which a host trap handler raises `e` -/
def trapSlice (e : MachError) : Slice :=
  { cycles := 10, memUpd := id, pcAfter := 0x802, a7After := 0xFFC,
    event := .trapExc (some e) }

/-- a top-level machine (empty run stack) -/
def mach0 : Machine :=
  { mem := zeroMem, regsCpu := zeroRegs, pcCpu := 0, run_states := [],
    raise_on_main_run := false }

/-- a running machine whose cpu just executed the trampoline RESET of
    its (sole, depth-0) run -/
def machRetHit : Machine :=
  { mem := zeroMem, regsCpu := zeroRegs, pcCpu := 0x402,
    run_states := [outerRS] }

/-- a running machine whose cpu just executed the RESET at
    `reset_exvec_addr` after an m68k TRAP #3 (vector 0x8C on the stack) -/
def machExvec : Machine :=
  { mem := w32 zeroMem 0x1000 0x8C,
    regsCpu := wreg zeroRegs REG_A7 0x1000, pcCpu := 0x422,
    run_states := [outerRS] }

/-- a running machine whose cpu just executed a RESET at an address that
    is neither the trampoline nor `reset_exvec_addr` -/
def machOther : Machine :=
  { mem := zeroMem, regsCpu := zeroRegs, pcCpu := 0x1002,
    run_states := [outerRS] }

/-- a run state with an error already pending -/
def rsPending : RunState :=
  { name := "p", pc := 0x800, sp := 0x1000, ret_addr := 0x400,
    error := some (.host 7), done := true }

def machPending : Machine :=
  { mem := zeroMem, regsCpu := zeroRegs, pcCpu := 0,
    run_states := [rsPending] }

/-- a run state with no error pending -/
def rsClean : RunState :=
  { name := "c", pc := 0x800, sp := 0x1000, ret_addr := 0x400 }

def machClean : Machine :=
  { mem := zeroMem, regsCpu := zeroRegs, pcCpu := 0,
    run_states := [rsClean] }

/-- Claim C1 — code bug. The spec says the trampoline return
address of a run entered at depth `d` is `run_reset_addr + 2*d`, matching
the machine docstring's table of 2-byte RESET slots and the layout
written by `_init_base_mem`; but `run` computes
`ret_addr = run_reset_addr + nesting * 4` (machine.py line 286). At
depth 1 the code yields 0x404 instead of 0x402, and at depth 8 the
computed trampoline collides with `reset_exvec_addr`. A full `run` at
depth 1 indeed returns a RunState with `ret_addr = 0x404`. -/
theorem C1_ret_addr_stride_is_4_not_2 :
    run_ret_addr 1 = 0x404 ∧
    run_reset_addr + 2 * 1 < run_ret_addr 1 ∧
    run_ret_addr 8 = reset_exvec_addr ∧
    (run mach1 [resetSlice (run_ret_addr 1)] 0x800 (some 0x7F0)
        [] [] 0 0 none).1 =
      .ok { name := "default", pc := 0x800, sp := 0x7F0, ret_addr := 0x404,
            error := none, done := true, cycles := 20, regs := none } := by
  decide

/-- Claim C2 — code bug. `_init_base_mem` is supposed to fill all 254
exception vectors (addresses 8, 12, ..., 0x3FC) with `reset_exvec_addr`,
but its loop body never increments `addr`: all 254 iterations write
address 8, so only the vector at 8 is set and the vector at 12 (and all
later ones) stays 0. -/
theorem C2_exvec_table_only_writes_addr_8 :
    r32 (init_base_mem 0 zeroMem) 8 = reset_exvec_addr ∧
    r32 (init_base_mem 0 zeroMem) 12 = 0 ∧
    r32 (init_base_mem 0 zeroMem) 0x3FC = 0 ∧
    0 < reset_exvec_addr := by
  decide

/-- Claim C3 — corrected. The spec requires `run` to fail with
`NestingOverflow` when the current depth has reached `run_max_nesting`
(16); the code performs no such check. Called at depth 16, `run`
proceeds normally: it computes the out-of-table trampoline address
0x440 (past `reset_exvec_addr` and `shutdown_trap_addr`) and completes
without raising any nesting error. -/
theorem C3_no_nesting_overflow_check :
    mach16.run_states.length = run_max_nesting ∧
    run_ret_addr 16 = 0x440 ∧
    shutdown_trap_addr + 2 ≤ run_ret_addr 16 ∧
    (run mach16 [resetSlice (run_ret_addr 16)] 0x800 (some 0x7F0)
        [] [] 0 0 none).1 =
      .ok { name := "default", pc := 0x800, sp := 0x7F0, ret_addr := 0x440,
            error := none, done := true, cycles := 20, regs := none } := by
  decide

/-! Section: Byte-memory lemmas -/

theorem w32_apply_outside (m : Mem) (a v x : Nat) (h : x < a ∨ a + 4 ≤ x) :
    w32 m a v x = m x := by
  simp only [w32, w16, w8]
  split_ifs <;> omega

theorem w32_byte0 (m : Mem) (a v : Nat) :
    w32 m a v a = v / 65536 / 256 % 256 := by
  simp only [w32, w16, w8]
  split_ifs <;> omega

theorem w32_byte1 (m : Mem) (a v : Nat) :
    w32 m a v (a + 1) = v / 65536 % 256 := by
  simp only [w32, w16, w8]
  split_ifs <;> omega

theorem w32_byte2 (m : Mem) (a v : Nat) :
    w32 m a v (a + 2) = v / 256 % 256 := by
  simp only [w32, w16, w8]
  split_ifs <;> omega

theorem w32_byte3 (m : Mem) (a v : Nat) :
    w32 m a v (a + 2 + 1) = v % 256 := by
  simp only [w32, w16, w8]
  split_ifs <;> omega

/-- reading back a 32-bit write returns the value modulo 2^32 -/
theorem r32_w32_same (m : Mem) (a v : Nat) :
    r32 (w32 m a v) a = v % 4294967296 := by
  simp only [r32, r16]
  rw [w32_byte0, w32_byte1, w32_byte2, w32_byte3]
  omega

/-- a 32-bit write does not affect a disjoint 32-bit read -/
theorem r32_w32_disjoint (m : Mem) (a v b : Nat)
    (h : a + 4 ≤ b ∨ b + 4 ≤ a) : r32 (w32 m a v) b = r32 m b := by
  simp only [r32, r16]
  rw [w32_apply_outside m a v b (by omega),
      w32_apply_outside m a v (b + 1) (by omega),
      w32_apply_outside m a v (b + 2) (by omega),
      w32_apply_outside m a v (b + 2 + 1) (by omega)]

/-- `r32` only depends on the four bytes it reads -/
theorem r32_congr (m1 m2 : Mem) (a : Nat)
    (h : ∀ x, a ≤ x → x < a + 4 → m1 x = m2 x) : r32 m1 a = r32 m2 a := by
  simp only [r32, r16]
  rw [h a (by omega) (by omega), h (a + 1) (by omega) (by omega),
      h (a + 2) (by omega) (by omega), h (a + 2 + 1) (by omega) (by omega)]

/-! Section: Handler claims -/

/-- Claim C9 — confirmed. `_invalid_mem_access`: when the current run state
already has a pending error the notification is ignored and nothing
changes; otherwise an `InvalidMemoryAccessError(mode, width, addr)` is
recorded, the run is marked done and `cpu.end()` is called (the second
component of the result). -/
theorem C9_invalid_mem_first_fault_wins
    (mach : Machine) (rs : RunState) (tl : List RunState)
    (mode width addr : Nat) (hstack : mach.run_states = rs :: tl) :
    (rs.error.isSome → invalid_mem_access mach mode width addr = (mach, false)) ∧
    (rs.error = none →
      invalid_mem_access mach mode width addr =
        ({ mach with run_states :=
             { rs with
                 error := some (.invalidMemoryAccess mode width addr),
                 done := true } :: tl }, true)) := by
  constructor
  · intro h
    simp [invalid_mem_access, get_cur_run_state, hstack, h]
  · intro h
    simp [invalid_mem_access, get_cur_run_state, hstack, h, updCur]

/-- witness for C9: both branches at concrete inputs -/
theorem C9_invalid_mem_first_fault_wins_witness :
    invalid_mem_access machPending 1 32 0xFFFFFF = (machPending, false) ∧
    invalid_mem_access machClean 1 32 0xFFFFFF =
      ({ machClean with run_states :=
           [{ rsClean with
                error := some (.invalidMemoryAccess 1 32 0xFFFFFF),
                done := true }] }, true) :=
  ⟨(C9_invalid_mem_first_fault_wins machPending rsPending [] 1 32 0xFFFFFF
      rfl).1 (by decide),
   (C9_invalid_mem_first_fault_wins machClean rsClean [] 1 32 0xFFFFFF
      rfl).2 rfl⟩

/-- Claim C7 — confirmed. `_reset_opcode_handler` with opcode address
`p = r_pc() - 2`: if `p` equals the current run state's `ret_addr`, the
run is marked done with no error and `cpu.end()` is called; else if `p`
equals `reset_exvec_addr`, an `InvalidCPUStateError` with text
`"m68k Exception #n"` is recorded, `n` being the 32-bit word at `[A7]`
divided by 4; otherwise the text is `"Unexpected RESET opcode"`. In both
error cases the run is marked done and `cpu.end()` is called. -/
theorem C7_reset_opcode_handler_classification
    (mach : Machine) (rs : RunState) (tl : List RunState)
    (hstack : mach.run_states = rs :: tl) :
    (mach.pcCpu - 2 = rs.ret_addr →
      reset_opcode_handler mach =
        ({ mach with run_states := { rs with done := true } :: tl }, true)) ∧
    (mach.pcCpu - 2 ≠ rs.ret_addr → mach.pcCpu - 2 = reset_exvec_addr →
      reset_opcode_handler mach =
        ({ mach with run_states :=
             { rs with
                 error := some (.invalidCPUState (mach.pcCpu - 2)
                   ("m68k Exception #" ++
                     toString (r32 mach.mem (mach.regsCpu REG_A7) / 4))),
                 done := true } :: tl }, true)) ∧
    (mach.pcCpu - 2 ≠ rs.ret_addr → mach.pcCpu - 2 ≠ reset_exvec_addr →
      reset_opcode_handler mach =
        ({ mach with run_states :=
             { rs with
                 error := some (.invalidCPUState (mach.pcCpu - 2)
                   "Unexpected RESET opcode"),
                 done := true } :: tl }, true)) := by
  refine ⟨fun h1 => ?_, fun h1 h2 => ?_, fun h1 h2 => ?_⟩
  · simp [reset_opcode_handler, get_cur_run_state, hstack, h1, updCur]
  · have h1' : ¬ (reset_exvec_addr = rs.ret_addr) := by
      rw [h2] at h1; exact h1
    simp [reset_opcode_handler, get_cur_run_state, hstack, h2, h1', updCur,
      Nat.shiftRight_eq_div_pow]
  · simp [reset_opcode_handler, get_cur_run_state, hstack, h1, h2, updCur]

/-- witness for C7: all three branches at concrete inputs; the machine
of the second branch carries m68k vector 0x8C at `[A7]`, giving
exception number 35 as in the spec's scenario 4 -/
theorem C7_reset_opcode_handler_classification_witness :
    reset_opcode_handler machRetHit =
      ({ machRetHit with
           run_states := [{ outerRS with done := true }] }, true) ∧
    reset_opcode_handler machExvec =
      ({ machExvec with run_states :=
           [{ outerRS with
                error := some (.invalidCPUState 0x420
                  "m68k Exception #35"),
                done := true }] }, true) ∧
    reset_opcode_handler machOther =
      ({ machOther with run_states :=
           [{ outerRS with
                error := some (.invalidCPUState 0x1000
                  "Unexpected RESET opcode"),
                done := true }] }, true) :=
  ⟨(C7_reset_opcode_handler_classification machRetHit outerRS [] rfl).1
      (by decide),
   (C7_reset_opcode_handler_classification machExvec outerRS [] rfl).2.1
      (by decide) (by decide),
   (C7_reset_opcode_handler_classification machOther outerRS [] rfl).2.2
      (by decide) (by decide)⟩

/-! Section: Equation lemmas for `runLoop` -/

theorem runLoop_nil (mc : Nat) (mach : Machine) (total : Nat) :
    runLoop mc mach total [] = (mach, total, none) := rfl

theorem runLoop_no_state (mc : Nat) (mach : Machine) (total : Nat)
    (s : Slice) (rest : List Slice)
    (hc : get_cur_run_state mach = none) :
    runLoop mc mach total (s :: rest) = (mach, total, none) := by
  simp [runLoop, hc]

theorem runLoop_done (mc : Nat) (mach : Machine) (total : Nat)
    (s : Slice) (rest : List Slice) (rs : RunState)
    (hc : get_cur_run_state mach = some rs) (hd : rs.done = true) :
    runLoop mc mach total (s :: rest) = (mach, total, none) := by
  simp [runLoop, hc, hd]

theorem runLoop_cons_pass (mc : Nat) (mach : Machine) (total : Nat)
    (s : Slice) (rest : List Slice) (rs : RunState)
    (hc : get_cur_run_state mach = some rs) (hd : rs.done = false)
    (hev : s.event = .pass) :
    runLoop mc mach total (s :: rest) =
      if mc > 0 ∧ total + s.cycles ≥ mc then
        (guestStep mach s, total + s.cycles, none)
      else
        runLoop mc (guestStep mach s) (total + s.cycles) rest := by
  simp [runLoop, hc, hd, hev]

theorem runLoop_cons_resetOp (mc : Nat) (mach : Machine) (total : Nat)
    (s : Slice) (rest : List Slice) (rs : RunState)
    (hc : get_cur_run_state mach = some rs) (hd : rs.done = false)
    (hev : s.event = .resetOp) :
    runLoop mc mach total (s :: rest) =
      if mc > 0 ∧ total + s.cycles ≥ mc then
        ((reset_opcode_handler (guestStep mach s)).1, total + s.cycles, none)
      else
        runLoop mc (reset_opcode_handler (guestStep mach s)).1
          (total + s.cycles) rest := by
  simp [runLoop, hc, hd, hev]

theorem runLoop_cons_invalidMem (mc : Nat) (mach : Machine) (total : Nat)
    (s : Slice) (rest : List Slice) (rs : RunState) (mode width addr : Nat)
    (hc : get_cur_run_state mach = some rs) (hd : rs.done = false)
    (hev : s.event = .invalidMem mode width addr) :
    runLoop mc mach total (s :: rest) =
      if mc > 0 ∧ total + s.cycles ≥ mc then
        ((invalid_mem_access (guestStep mach s) mode width addr).1,
          total + s.cycles, none)
      else
        runLoop mc (invalid_mem_access (guestStep mach s) mode width addr).1
          (total + s.cycles) rest := by
  simp [runLoop, hc, hd, hev]

theorem runLoop_cons_trapExc (mc : Nat) (mach : Machine) (total : Nat)
    (s : Slice) (rest : List Slice) (rs : RunState) (e : Option MachError)
    (hc : get_cur_run_state mach = some rs) (hd : rs.done = false)
    (hev : s.event = .trapExc e) :
    runLoop mc mach total (s :: rest) =
      ((trap_exc_handler (guestStep mach s) e).1, total, e) := by
  simp [runLoop, hc, hd, hev]

theorem runLoop_cons_raiseOut (mc : Nat) (mach : Machine) (total : Nat)
    (s : Slice) (rest : List Slice) (rs : RunState) (e : MachError)
    (hc : get_cur_run_state mach = some rs) (hd : rs.done = false)
    (hev : s.event = .raiseOut e) :
    runLoop mc mach total (s :: rest) = (guestStep mach s, total, some e) := by
  simp [runLoop, hc, hd, hev]

/-! Section: Preservation lemmas: the handlers only touch the head of the
run-state stack and never write memory -/

theorem guestStep_run_states (mach : Machine) (s : Slice) :
    (guestStep mach s).run_states = mach.run_states := rfl

theorem invalid_mem_access_preserves (mach : Machine) (mode width addr : Nat) :
    (invalid_mem_access mach mode width addr).1.run_states.tail
        = mach.run_states.tail ∧
    (invalid_mem_access mach mode width addr).1.run_states.length
        = mach.run_states.length ∧
    (invalid_mem_access mach mode width addr).1.mem = mach.mem := by
  cases h : mach.run_states with
  | nil => simp [invalid_mem_access, get_cur_run_state, h]
  | cons r tl =>
    by_cases he : r.error.isSome <;>
      simp [invalid_mem_access, get_cur_run_state, h, he, updCur]

theorem trap_exc_handler_preserves (mach : Machine) (exc : Option MachError) :
    (trap_exc_handler mach exc).1.run_states.tail = mach.run_states.tail ∧
    (trap_exc_handler mach exc).1.run_states.length
        = mach.run_states.length ∧
    (trap_exc_handler mach exc).1.mem = mach.mem := by
  cases h : mach.run_states with
  | nil => simp [trap_exc_handler, get_cur_run_state, h]
  | cons r tl => simp [trap_exc_handler, get_cur_run_state, h, updCur]

theorem reset_opcode_handler_preserves (mach : Machine) :
    (reset_opcode_handler mach).1.run_states.tail = mach.run_states.tail ∧
    (reset_opcode_handler mach).1.run_states.length
        = mach.run_states.length ∧
    (reset_opcode_handler mach).1.mem = mach.mem := by
  cases h : mach.run_states with
  | nil => simp [reset_opcode_handler, get_cur_run_state, h]
  | cons r tl =>
    by_cases h1 : mach.pcCpu - 2 = r.ret_addr
    · simp [reset_opcode_handler, get_cur_run_state, h, h1, updCur]
    · by_cases h2 : mach.pcCpu - 2 = reset_exvec_addr <;>
        simp [reset_opcode_handler, get_cur_run_state, h, h1, h2, updCur] <;>
        split_ifs <;> simp

/-- the execution loop preserves the tail and the length of the
run-state stack: only the current run state is ever rewritten -/
theorem runLoop_shape (mc : Nat) (sched : List Slice) :
    ∀ (mach : Machine) (total : Nat),
    (runLoop mc mach total sched).1.run_states.tail
        = mach.run_states.tail ∧
    (runLoop mc mach total sched).1.run_states.length
        = mach.run_states.length := by
  induction sched with
  | nil => intro mach total; simp [runLoop_nil]
  | cons s rest ih =>
    intro mach total
    cases hc : get_cur_run_state mach with
    | none => simp [runLoop_no_state mc mach total s rest hc]
    | some rs =>
      cases hd : rs.done with
      | true => simp [runLoop_done mc mach total s rest rs hc hd]
      | false =>
        cases hev : s.event with
        | pass =>
          rw [runLoop_cons_pass mc mach total s rest rs hc hd hev]
          split_ifs with hcap
          · simp [guestStep]
          · rcases ih (guestStep mach s) (total + s.cycles) with ⟨ht, hl⟩
            rw [ht, hl]; simp [guestStep]
        | resetOp =>
          rw [runLoop_cons_resetOp mc mach total s rest rs hc hd hev]
          rcases reset_opcode_handler_preserves (guestStep mach s) with
            ⟨ht0, hl0, _⟩
          split_ifs with hcap
          · rw [ht0, hl0]; simp [guestStep]
          · rcases ih (reset_opcode_handler (guestStep mach s)).1
              (total + s.cycles) with ⟨ht, hl⟩
            rw [ht, hl, ht0, hl0]; simp [guestStep]
        | invalidMem mode width addr =>
          rw [runLoop_cons_invalidMem mc mach total s rest rs mode width addr
            hc hd hev]
          rcases invalid_mem_access_preserves (guestStep mach s)
            mode width addr with ⟨ht0, hl0, _⟩
          split_ifs with hcap
          · rw [ht0, hl0]; simp [guestStep]
          · rcases ih (invalid_mem_access (guestStep mach s)
                mode width addr).1 (total + s.cycles) with ⟨ht, hl⟩
            rw [ht, hl, ht0, hl0]; simp [guestStep]
        | trapExc e =>
          rw [runLoop_cons_trapExc mc mach total s rest rs e hc hd hev]
          rcases trap_exc_handler_preserves (guestStep mach s) e with
            ⟨ht0, hl0, _⟩
          rw [ht0, hl0]; simp [guestStep]
        | raiseOut e =>
          rw [runLoop_cons_raiseOut mc mach total s rest rs e hc hd hev]
          simp [guestStep]

/-- exact effect of `_trap_exc_handler` on a machine with a current run -/
theorem trap_exc_handler_eq (mach : Machine) (exc : Option MachError)
    (r : RunState) (tl : List RunState) (h : mach.run_states = r :: tl) :
    trap_exc_handler mach exc =
      ({ mach with run_states :=
           { r with error := exc, done := true } :: tl }, true) := by
  simp [trap_exc_handler, get_cur_run_state, h, updCur]

/-- the machine component of `run_epilogue` is always the one passed in -/
theorem run_epilogue_snd (raise : Bool) (nesting : Nat) (mach : Machine)
    (rs : RunState) : (run_epilogue raise nesting mach rs).2 = mach := by
  rcases he : rs.error with _ | e <;> simp [run_epilogue, he]
  split_ifs <;> rfl

/-- the reset pulse loads A7 and PC from the just-written zero page and
    then restores the zero page to `(mem0, mem4)` -/
theorem pulse_reset_seq_spec (mach : Machine) (sp pc : Nat) :
    (pulse_reset_seq mach sp pc).regsCpu REG_A7 = sp % 4294967296 ∧
    (pulse_reset_seq mach sp pc).pcCpu = pc % 4294967296 ∧
    r32 (pulse_reset_seq mach sp pc).mem 0 = mach.mem0 % 4294967296 ∧
    r32 (pulse_reset_seq mach sp pc).mem 4 = mach.mem4 % 4294967296 := by
  refine ⟨?_, ?_, ?_, ?_⟩
  · show wreg mach.regsCpu REG_A7 (r32 (w32 (w32 mach.mem 0 sp) 4 pc) 0)
        REG_A7 = sp % 4294967296
    rw [r32_w32_disjoint _ 4 pc 0 (Or.inr (by omega)), r32_w32_same]
    simp [wreg]
  · show r32 (w32 (w32 mach.mem 0 sp) 4 pc) 4 = pc % 4294967296
    rw [r32_w32_same]
  · show r32 (w32 (w32 (w32 (w32 mach.mem 0 sp) 4 pc) 0 mach.mem0) 4
        mach.mem4) 0 = mach.mem0 % 4294967296
    rw [r32_w32_disjoint _ 4 mach.mem4 0 (Or.inr (by omega)), r32_w32_same]
  · show r32 (w32 (w32 (w32 (w32 mach.mem 0 sp) 4 pc) 0 mach.mem0) 4
        mach.mem4) 4 = mach.mem4 % 4294967296
    rw [r32_w32_same]

/-- `run_pre` succeeds whenever a stack pointer is supplied -/
theorem run_pre_some (mach : Machine) (pc spv : Nat)
    (sr : List (Nat × Nat)) (n? : Option String) :
    ∃ machP, run_pre mach pc (some spv) sr n? = some machP := by
  simp only [run_pre]
  exact ⟨_, rfl⟩

/-- shape of the machine produced by `run_pre`: a fresh `RunState` (no
    error, not done, trampoline `run_ret_addr nesting`) pushed on the
    unchanged stack, and a zero page holding `(mem0, mem4)` again -/
theorem run_pre_shape (mach : Machine) (pc : Nat) (sp? : Option Nat)
    (sr : List (Nat × Nat)) (n? : Option String) (machP : Machine)
    (h : run_pre mach pc sp? sr n? = some machP) :
    ∃ rsN, machP.run_states = rsN :: mach.run_states ∧
      rsN.error = none ∧ rsN.done = false ∧ rsN.cycles = 0 ∧
      rsN.pc = pc ∧
      rsN.ret_addr = run_ret_addr mach.run_states.length ∧
      r32 machP.mem 0 = mach.mem0 % 4294967296 ∧
      r32 machP.mem 4 = mach.mem4 % 4294967296 := by
  simp only [run_pre] at h
  rcases sp? with _ | spv
  · by_cases hn : mach.run_states.length = 0
    · simp [hn] at h
    · simp only [hn, if_neg, if_false] at h
      rw [Option.some_inj] at h
      subst h
      exact ⟨_, rfl, rfl, rfl, rfl, rfl, rfl,
        (pulse_reset_seq_spec _ _ _).2.2.1,
        (pulse_reset_seq_spec _ _ _).2.2.2⟩
  · rw [Option.some_inj] at h
    subst h
    exact ⟨_, rfl, rfl, rfl, rfl, rfl, rfl,
      (pulse_reset_seq_spec _ _ _).2.2.1,
      (pulse_reset_seq_spec _ _ _).2.2.2⟩

/-- `run_post` pops exactly the current run state; the outcome carries
    that state's error, and memory is untouched -/
theorem run_post_spec (raise : Bool) (nesting : Nat)
    (ctx : Option ((Nat → Nat) × Nat)) (gr : List Nat)
    (machL : Machine) (total : Nat) (rsF0 : RunState) (tl : List RunState)
    (h : machL.run_states = rsF0 :: tl) :
    (run_post raise nesting ctx gr machL total).2.run_states = tl ∧
    outcome_error (run_post raise nesting ctx gr machL total).1
        = rsF0.error ∧
    (run_post raise nesting ctx gr machL total).2.mem = machL.mem := by
  rcases ctx with _ | ⟨cr, cp⟩ <;>
    by_cases hg : gr.isEmpty <;>
    rcases he : rsF0.error with _ | e <;>
    simp [run_post, h, hg, updCur, run_epilogue, outcome_error, he] <;>
    split_ifs <;>
    simp [outcome_error]

/-- with no register readout requested and no error recorded, `run_post`
    returns the popped run state with its cycle count filled in -/
theorem run_post_ok (raise : Bool) (nesting : Nat)
    (ctx : Option ((Nat → Nat) × Nat)) (machL : Machine) (total : Nat)
    (rsF0 : RunState) (tl : List RunState)
    (h : machL.run_states = rsF0 :: tl) (he : rsF0.error = none) :
    (run_post raise nesting ctx [] machL total).1 =
      .ok { rsF0 with cycles := total } := by
  rcases ctx with _ | ⟨cr, cp⟩ <;>
    simp [run_post, h, updCur, run_epilogue, he]

/-- slices that keep their guest writes out of the zero page leave the
    low 8 bytes of memory unchanged through the execution loop -/
theorem runLoop_mem_low (mc : Nat) (sched : List Slice) :
    ∀ (mach : Machine) (total x : Nat),
    (∀ s ∈ sched, ∀ (m : Mem) (y : Nat), y < 8 → s.memUpd m y = m y) →
    x < 8 → (runLoop mc mach total sched).1.mem x = mach.mem x := by
  induction sched with
  | nil => intro mach total x _ _; simp [runLoop_nil]
  | cons s rest ih =>
    intro mach total x hmem hx
    have hs : ∀ (m : Mem) (y : Nat), y < 8 → s.memUpd m y = m y :=
      hmem s (by simp)
    have hrest : ∀ t ∈ rest, ∀ (m : Mem) (y : Nat), y < 8 →
        t.memUpd m y = m y :=
      fun t ht => hmem t (by simp [ht])
    have hg : (guestStep mach s).mem x = mach.mem x := hs mach.mem x hx
    cases hc : get_cur_run_state mach with
    | none => simp [runLoop_no_state mc mach total s rest hc]
    | some rs =>
      cases hd : rs.done with
      | true => simp [runLoop_done mc mach total s rest rs hc hd]
      | false =>
        cases hev : s.event with
        | pass =>
          rw [runLoop_cons_pass mc mach total s rest rs hc hd hev]
          split_ifs with hcap
          · exact hg
          · rw [ih (guestStep mach s) (total + s.cycles) x hrest hx]
            exact hg
        | resetOp =>
          rw [runLoop_cons_resetOp mc mach total s rest rs hc hd hev]
          have hh := (reset_opcode_handler_preserves (guestStep mach s)).2.2
          split_ifs with hcap
          · rw [hh]; exact hg
          · rw [ih (reset_opcode_handler (guestStep mach s)).1
              (total + s.cycles) x hrest hx, hh]
            exact hg
        | invalidMem mode width addr =>
          rw [runLoop_cons_invalidMem mc mach total s rest rs mode width addr
            hc hd hev]
          have hh := (invalid_mem_access_preserves (guestStep mach s)
            mode width addr).2.2
          split_ifs with hcap
          · rw [hh]; exact hg
          · rw [ih (invalid_mem_access (guestStep mach s)
                mode width addr).1 (total + s.cycles) x hrest hx, hh]
            exact hg
        | trapExc e =>
          rw [runLoop_cons_trapExc mc mach total s rest rs e hc hd hev]
          have hh := (trap_exc_handler_preserves (guestStep mach s) e).2.2
          rw [hh]; exact hg
        | raiseOut e =>
          rw [runLoop_cons_raiseOut mc mach total s rest rs e hc hd hev]
          exact hg

/-- without a cycle cap, the loop executes a prefix of pure guest slices
    by folding their effects and accumulating their cycles -/
theorem runLoop_pass_run_through (sched' : List Slice) (pre : List Slice) :
    ∀ (mach : Machine) (rs : RunState) (tl : List RunState) (total : Nat),
    (∀ t ∈ pre, t.event = SliceEvent.pass) →
    mach.run_states = rs :: tl → rs.done = false →
    runLoop 0 mach total (pre ++ sched') =
      runLoop 0 (List.foldl guestStep mach pre) (total + sumCycles pre)
        sched' ∧
    (List.foldl guestStep mach pre).run_states = mach.run_states := by
  induction pre with
  | nil => intro mach rs tl total _ _ _; simp [sumCycles]
  | cons s pre' ih =>
    intro mach rs tl total hall hstack hd
    have hc : get_cur_run_state mach = some rs := by
      simp [get_cur_run_state, hstack]
    have hev : s.event = SliceEvent.pass := hall s (by simp)
    have hall' : ∀ t ∈ pre', t.event = SliceEvent.pass :=
      fun t ht => hall t (by simp [ht])
    have hstack' : (guestStep mach s).run_states = rs :: tl := by
      rw [guestStep_run_states]; exact hstack
    have harith : total + sumCycles (s :: pre')
        = total + s.cycles + sumCycles pre' := by
      simp [sumCycles]; omega
    rcases ih (guestStep mach s) rs tl (total + s.cycles) hall' hstack' hd
      with ⟨hrec, hfold⟩
    constructor
    · rw [List.cons_append,
        runLoop_cons_pass 0 mach total s (pre' ++ sched') rs hc hd hev]
      split_ifs with hcap
      · omega
      · rw [hrec, harith]
        rfl
    · show (List.foldl guestStep (guestStep mach s) pre').run_states
          = mach.run_states
      rw [hfold, guestStep_run_states]

/-- over cap `k` and fault-free slices, the loop leaves the run-state
    stack untouched, accumulates exactly `sliceTotal`, and no exception
    escapes -/
theorem runLoop_all_pass (k : Nat) (sched : List Slice) :
    ∀ (mach : Machine) (rs : RunState) (tl : List RunState) (total : Nat),
    (∀ t ∈ sched, t.event = SliceEvent.pass) →
    mach.run_states = rs :: tl → rs.done = false →
    (runLoop k mach total sched).1.run_states = mach.run_states ∧
    (runLoop k mach total sched).2.1 = sliceTotal k total sched ∧
    (runLoop k mach total sched).2.2 = none := by
  induction sched with
  | nil => intro mach rs tl total _ _ _; simp [runLoop_nil, sliceTotal]
  | cons s rest ih =>
    intro mach rs tl total hall hstack hd
    have hc : get_cur_run_state mach = some rs := by
      simp [get_cur_run_state, hstack]
    have hev : s.event = SliceEvent.pass := hall s (by simp)
    have hall' : ∀ t ∈ rest, t.event = SliceEvent.pass :=
      fun t ht => hall t (by simp [ht])
    have hstack' : (guestStep mach s).run_states = rs :: tl := by
      rw [guestStep_run_states]; exact hstack
    rw [runLoop_cons_pass k mach total s rest rs hc hd hev]
    split_ifs with hcap
    · refine ⟨guestStep_run_states mach s, ?_, rfl⟩
      simp only [sliceTotal]
      rw [if_pos hcap]
    · rcases ih (guestStep mach s) rs tl (total + s.cycles) hall' hstack' hd
      with ⟨h1, h2, h3⟩
    -- the recursive call continues on the guest-stepped machine
      refine ⟨?_, ?_, h3⟩
      · rw [h1, guestStep_run_states]
      · rw [h2]
        simp only [sliceTotal]
        rw [if_neg hcap]

/-- `sliceTotal` is the first running total that reaches the cap: it is
    the sum of the cycles of a prefix, it reaches `k`, and every shorter
    prefix stays below `k` -/
theorem sliceTotal_first_cap (k : Nat) (sched : List Slice) :
    ∀ total : Nat, 0 < k → total < k → k ≤ total + sumCycles sched →
    ∃ i, i ≤ sched.length ∧
      sliceTotal k total sched = total + sumCycles (sched.take i) ∧
      k ≤ total + sumCycles (sched.take i) ∧
      ∀ j, j < i → total + sumCycles (sched.take j) < k := by
  induction sched with
  | nil =>
    intro total hk hlt hge
    exfalso
    simp [sumCycles] at hge
    omega
  | cons s rest ih =>
    intro total hk hlt hge
    by_cases hcap : 0 < k ∧ total + s.cycles ≥ k
    · refine ⟨1, by simp, ?_, ?_, ?_⟩
      · simp only [sliceTotal]
        rw [if_pos hcap]
        simp [sumCycles]
      · simpa [sumCycles] using hcap.2
      · intro j hj
        interval_cases j
        simpa [sumCycles] using hlt
    · have hlt' : total + s.cycles < k := by
        rcases Nat.lt_or_ge (total + s.cycles) k with h | h
        · exact h
        · exact absurd ⟨hk, h⟩ hcap
      have hge' : k ≤ total + s.cycles + sumCycles rest := by
        have : sumCycles (s :: rest) = s.cycles + sumCycles rest := by
          simp [sumCycles]
        omega
      rcases ih (total + s.cycles) hk hlt' hge' with ⟨i, hi, h1, h2, h3⟩
      refine ⟨i + 1, by simpa using hi, ?_, ?_, ?_⟩
      · simp only [sliceTotal]
        rw [if_neg hcap, h1]
        simp [sumCycles]
        omega
      · have : sumCycles (List.take (i + 1) (s :: rest))
            = s.cycles + sumCycles (List.take i rest) := by
          simp [sumCycles]
        omega
      · intro j hj
        cases j with
        | zero => simpa [sumCycles] using hlt
        | succ j' =>
          have : sumCycles (List.take (j' + 1) (s :: rest))
              = s.cycles + sumCycles (List.take j' rest) := by
            simp [sumCycles]
          have := h3 j' (by omega)
          omega

/-- `run_epilogue` either returns the run state or raises
    `NestedCPURunError`; nothing else -/
theorem run_epilogue_cases (raise : Bool) (nesting : Nat) (mach : Machine)
    (rs : RunState) :
    ((run_epilogue raise nesting mach rs).1 = RunOutcome.ok rs) ∨
    (∃ e, (run_epilogue raise nesting mach rs).1
        = RunOutcome.nestedError mach.pcCpu e) := by
  rcases he : rs.error with _ | e
  · left
    simp [run_epilogue, he]
  · simp only [run_epilogue, he]
    split_ifs with hif
    · right
      exact ⟨e, rfl⟩
    · left
      rfl

/-- an `ok` outcome still carrying an error can only come from a
    top-level run with `raise_on_main_run` unset -/
theorem run_epilogue_ok_error_inv (raise : Bool) (nesting : Nat)
    (mach : Machine) (rs rs2 : RunState) (e2 : MachError)
    (hok : (run_epilogue raise nesting mach rs).1 = RunOutcome.ok rs2)
    (he2 : rs2.error = some e2) :
    nesting = 0 ∧ raise = false := by
  rcases he : rs.error with _ | e
  · simp only [run_epilogue, he] at hok
    have hrs : rs = rs2 := by simpa using hok
    rw [← hrs, he] at he2
    exact absurd he2 (by simp)
  · simp only [run_epilogue, he] at hok
    split_ifs at hok with hif
    simp only [gt_iff_lt, Bool.or_eq_true, decide_eq_true_eq,
      not_or, Bool.not_eq_true] at hif
    exact ⟨by omega, hif.2⟩

/-- a `NestedCPURunError` outcome implies the run was nested or
    `raise_on_main_run` was set, and carries the recorded error -/
theorem run_epilogue_nested_inv (raise : Bool) (nesting : Nat)
    (mach : Machine) (rs : RunState) (p2 : Nat) (e2 : MachError)
    (hn : (run_epilogue raise nesting mach rs).1
        = RunOutcome.nestedError p2 e2) :
    (0 < nesting ∨ raise = true) ∧ rs.error = some e2 := by
  rcases he : rs.error with _ | e
  · simp [run_epilogue, he] at hn
  · simp only [run_epilogue, he] at hn
    split_ifs at hn with hif
    simp only [RunOutcome.nestedError.injEq] at hn
    simp only [gt_iff_lt, Bool.or_eq_true, decide_eq_true_eq] at hif
    exact ⟨hif, by simp [he, hn.2]⟩

/-- `run_post` is `run_epilogue` applied to the machine after register
    readout, context restore and pop, with the popped run state's error -/
theorem run_post_epilogue (raise : Bool) (nesting : Nat)
    (ctx : Option ((Nat → Nat) × Nat)) (gr : List Nat) (machL : Machine)
    (total : Nat) (rsF0 : RunState) (tl : List RunState)
    (h : machL.run_states = rsF0 :: tl) :
    ∃ mach4 rsFinal,
      run_post raise nesting ctx gr machL total
        = run_epilogue raise nesting mach4 rsFinal ∧
      rsFinal.error = rsF0.error := by
  rcases ctx with _ | ⟨cr, cp⟩ <;> by_cases hg : gr.isEmpty <;>
    (simp only [run_post, h, hg, updCur, Bool.false_eq_true, if_false,
       if_true]
     exact ⟨_, _, rfl, rfl⟩)

/-- given a non-empty run stack, `run_post` yields `ok` or
    `nestedError`, never the empty-pop artefact -/
theorem run_post_cases (raise : Bool) (nesting : Nat)
    (ctx : Option ((Nat → Nat) × Nat)) (gr : List Nat) (machL : Machine)
    (total : Nat) (rsF0 : RunState) (tl : List RunState)
    (h : machL.run_states = rsF0 :: tl) :
    (∃ rs, (run_post raise nesting ctx gr machL total).1
        = RunOutcome.ok rs) ∨
    (∃ p e, (run_post raise nesting ctx gr machL total).1
        = RunOutcome.nestedError p e) := by
  obtain ⟨mach4, rsFinal, heq, -⟩ :=
    run_post_epilogue raise nesting ctx gr machL total rsF0 tl h
  rcases run_epilogue_cases raise nesting mach4 rsFinal with h1 | ⟨e, h2⟩
  · exact Or.inl ⟨rsFinal, by rw [heq]; exact h1⟩
  · exact Or.inr ⟨mach4.pcCpu, e, by rw [heq]; exact h2⟩

/-! Section: Run-level claims -/

/-- Claim C10 — confirmed. Every `run()` call leaves the run-state stack
exactly as it found it: the pushed `RunState` is popped before the
normal return, before the `NestedCPURunError` rethrow, and the
`ValueError` path never pushes. -/
theorem C10_run_stack_balanced (mach : Machine) (sched : List Slice)
    (pc : Nat) (sp? : Option Nat) (sr : List (Nat × Nat)) (gr : List Nat)
    (mc cpr : Nat) (n? : Option String) :
    (run mach sched pc sp? sr gr mc cpr n?).2.run_states
      = mach.run_states := by
  rcases hpre : run_pre mach pc sp? sr n? with _ | machP
  · simp only [run, hpre]
  · obtain ⟨rsN, hshape, -, -, -, -, -, -, -⟩ :=
      run_pre_shape mach pc sp? sr n? machP hpre
    obtain ⟨ht, hl⟩ := runLoop_shape mc sched machP 0
    rcases hloop : runLoop mc machP 0 sched with ⟨machL, total, esc⟩
    rw [hloop] at ht hl
    dsimp only at ht hl
    simp only [run, hpre, hloop]
    cases hms : machL.run_states with
    | nil =>
      rw [hms, hshape] at hl
      simp at hl
    | cons rsF0 tl' =>
      have htl : tl' = mach.run_states := by
        rw [hms, hshape] at ht
        simpa using ht
      have hpop := (run_post_spec mach.raise_on_main_run
        mach.run_states.length
        (if mach.run_states.length > 0 then some (mach.regsCpu, mach.pcCpu)
          else none)
        gr machL total rsF0 tl' hms).1
      rw [hpop, htl]

/-- Claim C4 — confirmed. When a host trap handler raises during the
execution loop, `_trap_exc_handler` stores the exception into the
current run state's `error` field, and the loop is not resumed: the
outcome is the same whatever slices would have followed. -/
theorem C4_trap_exception_stored (mach : Machine) (pre : List Slice)
    (s : Slice) (rest : List Slice) (e : MachError) (pc spv cpr : Nat)
    (sr : List (Nat × Nat)) (gr : List Nat) (n? : Option String)
    (hpre : ∀ t ∈ pre, t.event = SliceEvent.pass)
    (hev : s.event = SliceEvent.trapExc (some e)) :
    outcome_error
      (run mach (pre ++ s :: rest) pc (some spv) sr gr 0 cpr n?).1
      = some e ∧
    run mach (pre ++ s :: rest) pc (some spv) sr gr 0 cpr n? =
      run mach (pre ++ [s]) pc (some spv) sr gr 0 cpr n? := by
  obtain ⟨machP, hpre_eq⟩ := run_pre_some mach pc spv sr n?
  obtain ⟨rsN, hshape, herrN, hdoneN, -, -, -, -, -⟩ :=
    run_pre_shape mach pc (some spv) sr n? machP hpre_eq
  obtain ⟨hloopPre, hfold⟩ := runLoop_pass_run_through (s :: rest) pre machP rsN
    mach.run_states 0 hpre hshape hdoneN
  obtain ⟨hloopPre2, -⟩ := runLoop_pass_run_through [s] pre machP rsN
    mach.run_states 0 hpre hshape hdoneN
  have hcG : get_cur_run_state (List.foldl guestStep machP pre)
      = some rsN := by
    simp [get_cur_run_state, hfold, hshape]
  have hstep : ∀ rest', runLoop 0 (List.foldl guestStep machP pre)
      (0 + sumCycles pre) (s :: rest') =
      ((trap_exc_handler (guestStep (List.foldl guestStep machP pre) s)
          (some e)).1,
        0 + sumCycles pre, some e) :=
    fun rest' => runLoop_cons_trapExc 0 _ _ s rest' rsN (some e) hcG
      hdoneN hev
  have hloop1 : runLoop 0 machP 0 (pre ++ s :: rest) =
      ((trap_exc_handler (guestStep (List.foldl guestStep machP pre) s)
          (some e)).1,
        0 + sumCycles pre, some e) := by
    rw [hloopPre, hstep rest]
  have hloop2 : runLoop 0 machP 0 (pre ++ [s]) =
      ((trap_exc_handler (guestStep (List.foldl guestStep machP pre) s)
          (some e)).1,
        0 + sumCycles pre, some e) := by
    rw [hloopPre2, hstep []]
  have hgs2 : (guestStep (List.foldl guestStep machP pre) s).run_states
      = rsN :: mach.run_states := by
    rw [guestStep_run_states, hfold, hshape]
  have hT : (trap_exc_handler
      (guestStep (List.foldl guestStep machP pre) s) (some e)).1.run_states
      = { rsN with error := some e, done := true } :: mach.run_states := by
    rw [trap_exc_handler_eq _ _ rsN mach.run_states hgs2]
  constructor
  · simp only [run, hpre_eq, hloop1]
    rw [(run_post_spec mach.raise_on_main_run mach.run_states.length _
      gr _ (0 + sumCycles pre) _ mach.run_states hT).2.1]
  · simp only [run, hpre_eq, hloop1, hloop2]

/-- witness for C4: a run whose second slice raises a host error; the
trailing slice is never executed -/
theorem C4_trap_exception_stored_witness :
    outcome_error (run mach0 [passSlice 5, trapSlice (.host 3), passSlice 7]
        0x800 (some 0x1000) [] [] 0 0 none).1 = some (.host 3) ∧
    run mach0 [passSlice 5, trapSlice (.host 3), passSlice 7]
        0x800 (some 0x1000) [] [] 0 0 none =
      run mach0 [passSlice 5, trapSlice (.host 3)]
        0x800 (some 0x1000) [] [] 0 0 none :=
  C4_trap_exception_stored mach0 [passSlice 5] (trapSlice (.host 3))
    [passSlice 7] (.host 3) 0x800 0x1000 0 [] [] none
    (fun t ht => by rw [List.mem_singleton.mp ht]; rfl) rfl

/-- Claim C5 — confirmed. On return from a run with a recorded error:
nested runs (entry depth > 0), and top-level runs with
`raise_on_main_run` set, rethrow `NestedCPURunError(pc, error)`; a
top-level run without `raise_on_main_run` returns the run state holding
the error. The first two conjuncts state the policy at `run`'s final
decision point (machine.py 368-375), which `run` calls with the entry
depth as `nesting`; the last two state it for whole `run` calls: an
error returned inside an `ok` outcome forces depth 0 with the flag
unset, and a raised `NestedCPURunError` forces depth > 0 or the flag. -/
theorem C5_error_rethrow_policy (raise : Bool) (nesting : Nat)
    (machX : Machine) (rsX : RunState) (e : MachError)
    (mach : Machine) (sched : List Slice) (pc : Nat) (sp? : Option Nat)
    (sr : List (Nat × Nat)) (gr : List Nat) (mc cpr : Nat)
    (n? : Option String)
    (herr : rsX.error = some e) :
    ((0 < nesting ∨ raise = true) →
      run_epilogue raise nesting machX rsX
        = (.nestedError machX.pcCpu e, machX)) ∧
    (nesting = 0 → raise = false →
      run_epilogue raise nesting machX rsX = (.ok rsX, machX)) ∧
    (∀ rs2 e2, (run mach sched pc sp? sr gr mc cpr n?).1
        = RunOutcome.ok rs2 → rs2.error = some e2 →
      mach.run_states.length = 0 ∧ mach.raise_on_main_run = false) ∧
    (∀ p2 e2, (run mach sched pc sp? sr gr mc cpr n?).1
        = RunOutcome.nestedError p2 e2 →
      0 < mach.run_states.length ∨ mach.raise_on_main_run = true) := by
  have hrun : ∀ (P : RunOutcome → Prop),
      (∀ msg, P (RunOutcome.valueError msg)) →
      (∀ mach4 rsFinal, P (run_epilogue mach.raise_on_main_run
        mach.run_states.length mach4 rsFinal).1) →
      P (run mach sched pc sp? sr gr mc cpr n?).1 := by
    intro P hval hepi
    rcases hpre : run_pre mach pc sp? sr n? with _ | machP
    · simp only [run, hpre]
      exact hval _
    · obtain ⟨rsN, hshape, -, -, -, -, -, -, -⟩ :=
        run_pre_shape mach pc sp? sr n? machP hpre
      obtain ⟨ht, hl⟩ := runLoop_shape mc sched machP 0
      rcases hloop : runLoop mc machP 0 sched with ⟨machL, total, esc⟩
      rw [hloop] at ht hl
      dsimp only at ht hl
      cases hms : machL.run_states with
      | nil =>
        rw [hms, hshape] at hl
        simp at hl
      | cons rsF0 tl' =>
        obtain ⟨mach4, rsFinal, heq, -⟩ :=
          run_post_epilogue mach.raise_on_main_run mach.run_states.length
            (if mach.run_states.length > 0 then
              some (mach.regsCpu, mach.pcCpu) else none)
            gr machL total rsF0 tl' hms
        simp only [run, hpre, hloop]
        rw [heq]
        exact hepi mach4 rsFinal
  refine ⟨?_, ?_, ?_, ?_⟩
  · intro h
    rcases h with h | h <;> simp [run_epilogue, herr, h]
  · intro h0 hr
    simp [run_epilogue, herr, h0, hr]
  · intro rs2 e2
    refine hrun (fun o => o = RunOutcome.ok rs2 → rs2.error = some e2 →
      mach.run_states.length = 0 ∧ mach.raise_on_main_run = false)
      ?_ ?_
    · intro msg hv
      simp at hv
    · intro mach4 rsFinal hok he2
      exact run_epilogue_ok_error_inv mach.raise_on_main_run
        mach.run_states.length mach4 rsFinal rs2 e2 hok he2
  · intro p2 e2
    refine hrun (fun o => o = RunOutcome.nestedError p2 e2 →
      0 < mach.run_states.length ∨ mach.raise_on_main_run = true) ?_ ?_
    · intro msg hv
      simp at hv
    · intro mach4 rsFinal hn
      exact (run_epilogue_nested_inv mach.raise_on_main_run
        mach.run_states.length mach4 rsFinal p2 e2 hn).1

/-- witness for C5: the epilogue branches at depth 1 and depth 0, and
two whole runs whose second slice records a host error — a top-level
one returning the error in its run state, and a nested one raising -/
theorem C5_error_rethrow_policy_witness :
    run_epilogue false 1 machPending rsPending
      = (.nestedError 0 (.host 7), machPending) ∧
    run_epilogue false 0 machPending rsPending
      = (.ok rsPending, machPending) ∧
    (mach0.run_states.length = 0 ∧ mach0.raise_on_main_run = false) ∧
    (0 < mach1.run_states.length ∨ mach1.raise_on_main_run = true) :=
  ⟨(C5_error_rethrow_policy false 1 machPending rsPending (.host 7)
      mach0 [] 0 none [] [] 0 0 none rfl).1 (Or.inl (by decide)),
   (C5_error_rethrow_policy false 0 machPending rsPending (.host 7)
      mach0 [] 0 none [] [] 0 0 none rfl).2.1 rfl rfl,
   (C5_error_rethrow_policy false 0 machPending rsPending (.host 7)
      mach0 [trapSlice (.host 2)] 0x800 (some 0x1000) [] [] 0 0 none
      rfl).2.2.1
     { name := "default", pc := 0x800, sp := 0x1000, ret_addr := 0x400,
       error := some (.host 2), done := true, cycles := 0, regs := none }
     (.host 2) (by decide) (by decide),
   (C5_error_rethrow_policy false 0 machPending rsPending (.host 7)
      mach1 [trapSlice (.host 2)] 0x800 (some 0x1000) [] [] 0 0 none
      rfl).2.2.2 0 (.host 2) (by decide)⟩

/-- Claim C6 — confirmed. With `max_cycles = k > 0` and guest code that
never reaches its trampoline (no host event in any slice), the loop
exits at the first slice boundary where the accumulated cycles reach
`k`, and `run` returns normally: outcome `ok`, `error = none`,
`done = false`, `cycles ≥ k`, and `cycles` is the cycle sum of the
shortest slice prefix reaching `k`. -/
theorem C6_max_cycles_returns_normally (mach : Machine)
    (sched : List Slice) (pc spv k cpr : Nat) (sr : List (Nat × Nat))
    (n? : Option String)
    (hk : 0 < k)
    (hall : ∀ t ∈ sched, t.event = SliceEvent.pass)
    (hsum : k ≤ sumCycles sched) :
    ∃ rs, (run mach sched pc (some spv) sr [] k cpr n?).1
        = RunOutcome.ok rs ∧
      rs.error = none ∧ rs.done = false ∧ k ≤ rs.cycles ∧
      ∃ i, i ≤ sched.length ∧ rs.cycles = sumCycles (sched.take i) ∧
        ∀ j, j < i → sumCycles (sched.take j) < k := by
  obtain ⟨machP, hpre_eq⟩ := run_pre_some mach pc spv sr n?
  obtain ⟨rsN, hshape, herrN, hdoneN, -, -, -, -, -⟩ :=
    run_pre_shape mach pc (some spv) sr n? machP hpre_eq
  obtain ⟨h1, h2, h3⟩ := runLoop_all_pass k sched machP rsN
    mach.run_states 0 hall hshape hdoneN
  rcases hloop : runLoop k machP 0 sched with ⟨machL, total, esc⟩
  rw [hloop] at h1 h2 h3
  dsimp only at h1 h2 h3
  have hmsL : machL.run_states = rsN :: mach.run_states := by
    rw [h1, hshape]
  have hok := run_post_ok mach.raise_on_main_run mach.run_states.length
    (if mach.run_states.length > 0 then some (mach.regsCpu, mach.pcCpu)
      else none)
    machL total rsN mach.run_states hmsL herrN
  obtain ⟨i, hi, heq, hge, hlt⟩ := sliceTotal_first_cap k sched 0 hk hk
    (by simpa using hsum)
  refine ⟨{ rsN with cycles := total }, ?_, herrN, hdoneN, ?_, i, hi, ?_, ?_⟩
  · simp only [run, hpre_eq, hloop]
    exact hok
  · simp only [h2, heq]
    omega
  · simp only [h2, heq]
    omega
  · intro j hj
    have := hlt j hj
    omega

/-- witness for C6: six fault-free slices of 1000 cycles against a cap
of 5000, as in the spec's scenario 5 -/
theorem C6_max_cycles_returns_normally_witness :
    ∃ rs, (run mach0 (List.replicate 6 (passSlice 1000)) 0x800
        (some 0x1000) [] [] 5000 1000 none).1 = RunOutcome.ok rs ∧
      rs.error = none ∧ rs.done = false ∧ 5000 ≤ rs.cycles ∧
      ∃ i, i ≤ (List.replicate 6 (passSlice 1000)).length ∧
        rs.cycles = sumCycles ((List.replicate 6 (passSlice 1000)).take i) ∧
        ∀ j, j < i →
          sumCycles ((List.replicate 6 (passSlice 1000)).take j) < 5000 :=
  C6_max_cycles_returns_normally mach0 (List.replicate 6 (passSlice 1000))
    0x800 0x1000 5000 1000 [] none (by decide)
    (fun t ht => by rw [List.eq_of_mem_replicate ht]; rfl) (by decide)

/-- Claim C8 — confirmed. The reset pulse writes `sp` to zero-page[0] and
`pc` to zero-page[4] (the pulsed reset loads exactly those values into
A7 and PC) and then restores `(mem0, mem4)`; consequently, as long as
the guest leaves the zero page alone, the 32-bit words at 0 and 4 equal
`(mem0, mem4)` after any completed `run()`. -/
theorem C8_zero_page_restored (mach : Machine) (sched : List Slice)
    (pc spv mc cpr : Nat) (sr : List (Nat × Nat)) (gr : List Nat)
    (n? : Option String)
    (hmem : ∀ s ∈ sched, ∀ (m : Mem) (y : Nat), y < 8 → s.memUpd m y = m y)
    (hm0 : mach.mem0 < 4294967296) (hm4 : mach.mem4 < 4294967296) :
    (∀ (m2 : Machine) (sp2 pc2 : Nat),
      (pulse_reset_seq m2 sp2 pc2).regsCpu REG_A7 = sp2 % 4294967296 ∧
      (pulse_reset_seq m2 sp2 pc2).pcCpu = pc2 % 4294967296 ∧
      r32 (pulse_reset_seq m2 sp2 pc2).mem 0 = m2.mem0 % 4294967296 ∧
      r32 (pulse_reset_seq m2 sp2 pc2).mem 4 = m2.mem4 % 4294967296) ∧
    r32 (run mach sched pc (some spv) sr gr mc cpr n?).2.mem 0
      = mach.mem0 ∧
    r32 (run mach sched pc (some spv) sr gr mc cpr n?).2.mem 4
      = mach.mem4 := by
  obtain ⟨machP, hpre_eq⟩ := run_pre_some mach pc spv sr n?
  obtain ⟨rsN, hshape, -, -, -, -, -, hr0, hr4⟩ :=
    run_pre_shape mach pc (some spv) sr n? machP hpre_eq
  obtain ⟨ht, hl⟩ := runLoop_shape mc sched machP 0
  rcases hloop : runLoop mc machP 0 sched with ⟨machL, total, esc⟩
  rw [hloop] at ht hl
  dsimp only at ht hl
  have hmlow : ∀ x, x < 8 → machL.mem x = machP.mem x := by
    intro x hx
    have := runLoop_mem_low mc sched machP 0 x hmem hx
    rw [hloop] at this
    exact this
  cases hms : machL.run_states with
  | nil =>
    rw [hms, hshape] at hl
    simp at hl
  | cons rsF0 tl' =>
    have hpostmem := (run_post_spec mach.raise_on_main_run
      mach.run_states.length
      (if mach.run_states.length > 0 then some (mach.regsCpu, mach.pcCpu)
        else none)
      gr machL total rsF0 tl' hms).2.2
    refine ⟨pulse_reset_seq_spec, ?_, ?_⟩
    · simp only [run, hpre_eq, hloop]
      rw [hpostmem,
        r32_congr machL.mem machP.mem 0 (fun x hx1 hx2 => hmlow x (by omega)),
        hr0, Nat.mod_eq_of_lt hm0]
    · simp only [run, hpre_eq, hloop]
      rw [hpostmem,
        r32_congr machL.mem machP.mem 4 (fun x hx1 hx2 => hmlow x (by omega)),
        hr4, Nat.mod_eq_of_lt hm4]

/-- witness for C8: a concrete top-level run with a zero-page-preserving
slice -/
theorem C8_zero_page_restored_witness :
    (∀ (m2 : Machine) (sp2 pc2 : Nat),
      (pulse_reset_seq m2 sp2 pc2).regsCpu REG_A7 = sp2 % 4294967296 ∧
      (pulse_reset_seq m2 sp2 pc2).pcCpu = pc2 % 4294967296 ∧
      r32 (pulse_reset_seq m2 sp2 pc2).mem 0 = m2.mem0 % 4294967296 ∧
      r32 (pulse_reset_seq m2 sp2 pc2).mem 4 = m2.mem4 % 4294967296) ∧
    r32 (run mach0 [passSlice 9] 0x800 (some 0x1000) [] [] 0 0 none).2.mem 0
      = mach0.mem0 ∧
    r32 (run mach0 [passSlice 9] 0x800 (some 0x1000) [] [] 0 0 none).2.mem 4
      = mach0.mem4 :=
  C8_zero_page_restored mach0 [passSlice 9] 0x800 0x1000 0 0 [] [] none
    (fun s hs m y hy => by rw [List.mem_singleton.mp hs]; rfl)
    (by decide) (by decide)

/-- Claim C3 — corrected (amended claim). `run` performs no
nesting-depth check and never fails with a `NestingOverflow`: at every
depth, including depths at or beyond `run_max_nesting`, a call with a
stack pointer supplied proceeds to execution and ends either by
returning a run state or by rethrowing a recorded error as
`NestedCPURunError`. -/
theorem C3_run_proceeds_at_any_depth (mach : Machine) (sched : List Slice)
    (pc spv : Nat) (sr : List (Nat × Nat)) (gr : List Nat) (mc cpr : Nat)
    (n? : Option String) :
    (∃ rs, (run mach sched pc (some spv) sr gr mc cpr n?).1
        = RunOutcome.ok rs) ∨
    (∃ p e, (run mach sched pc (some spv) sr gr mc cpr n?).1
        = RunOutcome.nestedError p e) := by
  obtain ⟨machP, hpre_eq⟩ := run_pre_some mach pc spv sr n?
  obtain ⟨rsN, hshape, -, -, -, -, -, -, -⟩ :=
    run_pre_shape mach pc (some spv) sr n? machP hpre_eq
  obtain ⟨ht, hl⟩ := runLoop_shape mc sched machP 0
  rcases hloop : runLoop mc machP 0 sched with ⟨machL, total, esc⟩
  rw [hloop] at ht hl
  dsimp only at ht hl
  cases hms : machL.run_states with
  | nil =>
    rw [hms, hshape] at hl
    simp at hl
  | cons rsF0 tl' =>
    have hcases := run_post_cases mach.raise_on_main_run
      mach.run_states.length
      (if mach.run_states.length > 0 then some (mach.regsCpu, mach.pcCpu)
        else none) gr machL total rsF0 tl' hms
    simp only [run, hpre_eq, hloop]
    exact hcases

end AmiMachine
